import Mathlib

/-!
Verification of the SVCA repository core (`src/svca.py`): a shallow
embedding of the two routines `svca` and `split_data` over exact
rationals, with numpy-style shape bookkeeping (explicit row/column
counts, silent slice clamping, 2-D broadcasting for `+`).
-/

/-- A numpy-style 2-D real array, modelled over `ℚ`: explicit shape
plus row-major data.  A matrix with zero rows still remembers its
column count, as a numpy array does. -/
structure NPMat where
  rows : ℕ
  cols : ℕ
  data : List (List ℚ)
deriving Repr, DecidableEq

/-- Well-formedness: the data really has shape `rows × cols`. -/
def NPMat.WF (A : NPMat) : Prop :=
  A.data.length = A.rows ∧ ∀ r ∈ A.data, r.length = A.cols

instance (A : NPMat) : Decidable A.WF := by
  unfold NPMat.WF; exact instDecidableAnd

/-- Entry access, total with junk value 0 out of range (as every use in
the embedded code is in range, under `WF`). -/
def NPMat.entry (A : NPMat) (i j : ℕ) : ℚ := (A.data.getD i []).getD j 0

/-- `A.T` (numpy transpose). -/
def NPMat.transpose (A : NPMat) : NPMat :=
  ⟨A.cols, A.rows,
    (List.range A.cols).map fun j => (List.range A.rows).map fun i => A.entry i j⟩

/-- `A @ B` (numpy matmul); the contraction runs over `A.cols`, which
equals `B.rows` at every call site in the embedded code. -/
def NPMat.matmul (A B : NPMat) : NPMat :=
  ⟨A.rows, B.cols,
    (List.range A.rows).map fun i => (List.range B.cols).map fun j =>
      ∑ k in Finset.range A.cols, A.entry i k * B.entry k j⟩

/-- Multiply every entry by a scalar (used for `/ Ttrain` as `* (1/Ttrain)`). -/
def NPMat.scale (c : ℚ) (A : NPMat) : NPMat :=
  ⟨A.rows, A.cols, A.data.map fun r => r.map fun x => c * x⟩

/-- `A[:, :n]` — numpy column slice; silently clamps when `n > cols`. -/
def NPMat.takeCols (A : NPMat) (n : ℕ) : NPMat :=
  ⟨A.rows, min n A.cols, A.data.map fun r => r.take n⟩

/-- `A[:n]` — numpy row slice; silently clamps when `n > rows`. -/
def NPMat.takeRows (A : NPMat) (n : ℕ) : NPMat :=
  ⟨min n A.rows, A.cols, A.data.take n⟩

/-- `np.diag` of a 2-D array: the main diagonal, length `min rows cols`. -/
def NPMat.diag (A : NPMat) : List ℚ :=
  (List.range (min A.rows A.cols)).map fun i => A.entry i i

/-- numpy broadcast of one dimension pair: equal, or one of them is 1. -/
def bcastDim (a b : ℕ) : Option ℕ :=
  if a = b then some a else if a = 1 then some b else if b = 1 then some a else none

/-- Index into a possibly-broadcast dimension. -/
def bidx (n i : ℕ) : ℕ := if n = 1 then 0 else i

/-- numpy `+` on 2-D arrays with broadcasting; `none` models the
`ValueError` raised on incompatible shapes. -/
def NPMat.npAdd (A B : NPMat) : Option NPMat :=
  match bcastDim A.rows B.rows, bcastDim A.cols B.cols with
  | some r, some c =>
      some ⟨r, c, (List.range r).map fun i => (List.range c).map fun j =>
        A.entry (bidx A.rows i) (bidx A.cols j) + B.entry (bidx B.rows i) (bidx B.cols j)⟩
  | _, _ => none

/-- The identity matrix, used as a concrete stand-in for an SVD basis
in witnesses (the code's claims under scrutiny depend only on the
shapes and entries of whatever `svd` returns). -/
def idM (n : ℕ) : NPMat :=
  ⟨n, n, (List.range n).map fun i => (List.range n).map fun j => if i = j then 1 else 0⟩


/-! ## Embedding of `split_data` (src/svca.py, lines 61-118) -/

/-- `position.max()` on a numpy vector (junk 0 on the empty vector,
where numpy would raise). -/
def npMax (l : List ℚ) : ℚ := l.foldl max (l.headD 0)

/-- `position.min()`. -/
def npMin (l : List ℚ) : ℚ := l.foldl min (l.headD 0)

/-- `np.arange(lo, hi, step)` for a positive step: `lo + k*step` for
`k < ⌈(hi - lo)/step⌉`. -/
def arange (lo hi step : ℚ) : List ℚ :=
  if step ≤ 0 then []
  else (List.range (Int.toNat ⌈(hi - lo) / step⌉)).map fun k => lo + (k : ℚ) * step

/-- `np.digitize(x, bins)` for monotonically increasing `bins`
(default `right=False`): the number of bin edges `≤ x`. -/
def digitize (x : ℚ) (bins : List ℚ) : ℕ :=
  (bins.filter fun b => decide (b ≤ x)).length

/-- Column `j` of a matrix (`X[:, j]` as a vector). -/
def NPMat.getCol (A : NPMat) (j : ℕ) : List ℚ := A.data.map fun r => r.getD j 0

/-- The shuffle loop `for i in range(neurons): X[:,i] = np.random.permutation(X[:,i])`:
column `i` of `X` is replaced by the global generator's `i`-th draw
`gperm i` applied to that column.  The draws come from the process-global
`np.random` state, passed in as `gperm`; the seeded `RandomState(seed)`
constructed by the source is dead code and does not appear. -/
def shuffleX (gperm : ℕ → List ℚ → List ℚ) (X : NPMat) : NPMat :=
  ⟨X.rows, X.cols,
    (List.range X.rows).map fun t => (List.range X.cols).map fun j =>
      (gperm j (X.getCol j)).getD t 0⟩

/-- `split_id = np.ones(2*time_bins); split_id[:time_bins] = 0`. -/
def split_id (time_bins : ℕ) : List ℚ :=
  List.replicate time_bins 0 ++ List.replicate time_bins 1

/-- `np.round` on the exact quotient `num/den` (`den > 0`): round half
to even, numpy's rounding rule. -/
def npRoundNat (num den : ℕ) : ℕ :=
  let q := num / den
  let r := num % den
  if 2 * r < den then q
  else if den < 2 * r then q + 1
  else if q % 2 = 0 then q else q + 1

/-- `np.tile(l, k)`: `k` copies of `l` concatenated. -/
def tile (l : List ℚ) (k : ℕ) : List ℚ := (List.replicate k l).flatten

/-- `time_id = np.tile(split_id, int(n_reps))[:time_steps]` with
`n_reps = np.round(time_steps/(2*time_bins)) + 1`: the train/test
indicator along the observation axis (0 = train, 1 = test). -/
def time_id (time_steps time_bins : ℕ) : List ℚ :=
  (tile (split_id time_bins) (npRoundNat time_steps (2 * time_bins) + 1)).take time_steps

/-- `X[mask]` for a boolean row mask: keep the rows whose index the
mask marks true. -/
def NPMat.selectRows (A : NPMat) (mask : List Bool) : NPMat :=
  let kept := ((List.range A.rows).filter fun i => mask.getD i false).map fun i => A.data.getD i []
  ⟨kept.length, A.cols, kept⟩

/-- `X[:, mask]` for a boolean column mask: keep the columns whose
index the mask marks true. -/
def NPMat.selectCols (A : NPMat) (mask : List Bool) : NPMat :=
  let kept := (List.range A.cols).filter fun j => mask.getD j false
  ⟨A.rows, kept.length, A.data.map fun r => kept.map fun j => r.getD j 0⟩

/-- Column means, `A.mean(0)` (junk on zero rows, where numpy gives NaN). -/
def colMeans (A : NPMat) : List ℚ :=
  (List.range A.cols).map fun j => (A.getCol j).sum / (A.rows : ℚ)

/-- Subtract a row vector from every row (`A -= mu` with `mu` of shape
`(1, cols)`). -/
def subRowVec (A : NPMat) (v : List ℚ) : NPMat :=
  ⟨A.rows, A.cols,
    A.data.map fun r => (List.range A.cols).map fun j => r.getD j 0 - v.getD j 0⟩

/-- The warning text of `warnings.warn` at line 92 of the source. -/
def binWidthWarning : String :=
  "Using bin_width variable to split neurons; ignoring neuron_bins"

/-- The warning text of `warnings.warn` at line 94 of the source (the
interpolated seed value is dropped). -/
def seedWarning : String := "Ignoring provided random seed"

/-- The observable outcome of a `split_data` call: the warnings it
emitted, the argument array as it stands after the call (the source
mutates `X` in place when `shuffle` is on), and the returned quadruplet. -/
structure SplitResult where
  warnings : List String
  newX : NPMat
  Ftrain : NPMat
  Ftest : NPMat
  Gtrain : NPMat
  Gtest : NPMat
deriving Repr, DecidableEq

/-- Line 90 of the source: the bin width actually used — the given one,
or the position range divided into `neuron_bins` even strips. -/
def bwOf (position : List ℚ) (bin_width : Option ℚ) (neuron_bins : ℕ) : ℚ :=
  match bin_width with
  | none => (npMax position - npMin position) / (neuron_bins : ℚ)
  | some w => w

/-- Lines 96-98 of the source: the feature mask — bins spanning the
positions, each feature digitized into a bin, even bins marked true
(group F), odd bins false (group G). -/
def neuronIdOf (position : List ℚ) (bin_width : Option ℚ) (neuron_bins : ℕ) : List Bool :=
  let bw := bwOf position bin_width neuron_bins
  let bins := arange (npMin position) (npMax position + bw) bw
  position.map fun p => decide (digitize p bins % 2 = 0)

/-- Lines 82-109 of the source: the shuffle, the two warnings, the
spatial binning of features, the alternating time binning, and the
four uncentered slices.  `gperm` stands for the process-global
`np.random` generator consumed by `np.random.permutation` (one draw
per column); it, and not the dead local `rng = np.random.RandomState(seed)`,
is what the source's shuffle consults. -/
def split_raw (gperm : ℕ → List ℚ → List ℚ) (X : NPMat) (position : List ℚ)
    (bin_width : Option ℚ) (neuron_bins : ℕ) (time_bins : ℕ)
    (shuffle : Bool) (seed : Option ℤ) : SplitResult :=
  let time_steps := X.rows
  let X1 := if shuffle then shuffleX gperm X else X
  let w1 : List String := if bin_width.isSome then [binWidthWarning] else []
  let w2 : List String := if shuffle = false ∧ seed.isSome = true then [seedWarning] else []
  let neuron_id : List Bool := neuronIdOf position bin_width neuron_bins
  let tid := time_id time_steps time_bins
  let trainMask := tid.map fun x => decide (x = 0)
  let testMask := tid.map fun x => decide (x = 1)
  let Ftrain := (X1.selectRows trainMask).selectCols neuron_id
  let Ftest := (X1.selectRows testMask).selectCols neuron_id
  let Gtrain := (X1.selectRows trainMask).selectCols (neuron_id.map (!·))
  let Gtest := (X1.selectRows testMask).selectCols (neuron_id.map (!·))
  ⟨w1 ++ w2, X1, Ftrain, Ftest, Gtrain, Gtest⟩

/-- Lines 110-116 of the source: center a train/test pair by the train
column means. -/
def center2 (Atrain Atest : NPMat) : NPMat × NPMat :=
  let mu := colMeans Atrain
  (subRowVec Atrain mu, subRowVec Atest mu)

/-- The embedding of `split_data` (lines 61-118): the raw double
partition followed by centering with the train means. -/
def split_data (gperm : ℕ → List ℚ → List ℚ) (X : NPMat) (position : List ℚ)
    (bin_width : Option ℚ) (neuron_bins : ℕ) (time_bins : ℕ)
    (shuffle : Bool) (seed : Option ℤ) : SplitResult :=
  let r := split_raw gperm X position bin_width neuron_bins time_bins shuffle seed
  let F2 := center2 r.Ftrain r.Ftest
  let G2 := center2 r.Gtrain r.Gtest
  ⟨r.warnings, r.newX, F2.1, F2.2, G2.1, G2.2⟩

/-! ## Embedding of `svca` (src/svca.py, lines 9-58) -/

/-- Shape and well-formedness contract of `scipy.linalg.svd` as used by
the source (`U, _, Vh = svd(Ctrain)` with full matrices): `U` is square
of side `C.rows`, `Vh` square of side `C.cols`. -/
def SvdOK (svd : NPMat → NPMat × NPMat) : Prop :=
  ∀ C : NPMat, (svd C).1.rows = C.rows ∧ (svd C).1.cols = C.rows ∧
    (svd C).2.rows = C.cols ∧ (svd C).2.cols = C.cols ∧
    (svd C).1.WF ∧ (svd C).2.WF

/-- A concrete stand-in for the SVD used by witnesses: identity bases
of the correct shapes (the claims under scrutiny constrain only shapes
and the algebra applied to whatever bases come back). -/
def svdId (C : NPMat) : NPMat × NPMat := (idM C.rows, idM C.cols)

/-- Line 39: `Ctrain = Ftrain.T @ Gtrain / Ttrain` (and, with the test
pair, line 40: `Ctest`). -/
def crossCov (A B : NPMat) : NPMat :=
  (A.transpose.matmul B).scale (1 / (A.rows : ℚ))

/-- Line 47: `S_hat = U[:,:n_dims].T @ Ctest @ Vh[:n_dims].T`. -/
def S_hatOf (U Vh Ctest : NPMat) (nd : ℕ) : NPMat :=
  ((U.takeCols nd).transpose.matmul Ctest).matmul (Vh.takeRows nd).transpose

/-- Line 48: `S_F = U[:,:n_dims].T @ C_F @ U[:,:n_dims]`. -/
def S_FOf (U C_F : NPMat) (nd : ℕ) : NPMat :=
  ((U.takeCols nd).transpose.matmul C_F).matmul (U.takeCols nd)

/-- Line 49: `S_G = Vh[:n_dims] @ C_G @ Vh[:n_dims].T`. -/
def S_GOf (Vh C_G : NPMat) (nd : ℕ) : NPMat :=
  ((Vh.takeRows nd).matmul C_G).matmul (Vh.takeRows nd).transpose

/-- The embedding of `svca` (lines 9-58).  `svd` abstracts
`scipy.linalg.svd` (only `U` and `Vh` are consumed).  `none` models a
raised exception: a failed `assert` at lines 30-33, or the broadcast
`ValueError` that `S_F + S_G` raises when the clamped bases disagree
in size. -/
def svca (svd : NPMat → NPMat × NPMat) (Ftrain Ftest Gtrain Gtest : NPMat)
    (n_dims : Option ℕ) : Option (List ℚ × List ℚ × NPMat × NPMat) :=
  if Ftrain.cols = Ftest.cols ∧ Gtrain.cols = Gtest.cols ∧
     Ftrain.rows = Gtrain.rows ∧ Ftest.rows = Gtest.rows then
    let nd := n_dims.getD (min Ftrain.cols Gtrain.cols)
    let Ctrain := crossCov Ftrain Gtrain
    let Ctest := crossCov Ftest Gtest
    let U := (svd Ctrain).1
    let Vh := (svd Ctrain).2
    let C_F := crossCov Ftest Ftest
    -- the source divides C_G by Ttest = Ftest.shape[0]; under the assert
    -- Ftest.rows = Gtest.rows just checked, that equals Gtest.rows
    let C_G := crossCov Gtest Gtest
    let reliable_variance := (S_hatOf U Vh Ctest nd).diag
    match (S_FOf U C_F nd).npAdd (S_GOf Vh C_G nd) with
    | none => none
    | some SFG =>
      let all_variance := SFG.diag.map fun x => (1 / 2 : ℚ) * x
      let SVC1 := Ftest.matmul (U.takeCols nd)
      let SVC2 := Gtest.matmul (Vh.takeRows nd).transpose
      some (reliable_variance, all_variance, SVC1, SVC2)
  else none

/-! ## getD toolkit -/

theorem getD_map_range {α : Type} (f : ℕ → α) (n i : ℕ) (d : α) :
    ((List.range n).map f).getD i d = if i < n then f i else d := by
  by_cases h : i < n
  · rw [List.getD_eq_getElem _ _ (by simpa using h)]
    simp [h]
  · rw [List.getD_eq_default _ _ (by simpa using Nat.le_of_not_lt h)]
    simp [h]

theorem getD_take {α : Type} (l : List α) (n i : ℕ) (d : α) (h : i < n) :
    (l.take n).getD i d = l.getD i d := by
  by_cases hl : i < l.length
  · rw [List.getD_eq_getElem _ _ (by simp [h, hl]), List.getD_eq_getElem _ _ hl]
    simp [List.getElem_take]
  · rw [List.getD_eq_default _ _ (by simp; omega), List.getD_eq_default _ _ (by omega)]

theorem getD_map' {α β : Type} (f : α → β) (l : List α) (i : ℕ) (d : α) (d' : β)
    (hd : f d = d') : (l.map f).getD i d' = f (l.getD i d) := by
  subst hd; exact List.getD_map l d f

/-! ## Shape lemmas (all structural) -/

@[simp] theorem NPMat.transpose_rows (A : NPMat) : A.transpose.rows = A.cols := rfl

@[simp] theorem NPMat.transpose_cols (A : NPMat) : A.transpose.cols = A.rows := rfl

@[simp] theorem NPMat.matmul_rows (A B : NPMat) : (A.matmul B).rows = A.rows := rfl

@[simp] theorem NPMat.matmul_cols (A B : NPMat) : (A.matmul B).cols = B.cols := rfl

@[simp] theorem NPMat.scale_rows (c : ℚ) (A : NPMat) : (A.scale c).rows = A.rows := rfl

@[simp] theorem NPMat.scale_cols (c : ℚ) (A : NPMat) : (A.scale c).cols = A.cols := rfl

@[simp] theorem NPMat.takeCols_rows (A : NPMat) (n : ℕ) : (A.takeCols n).rows = A.rows := rfl

@[simp] theorem NPMat.takeCols_cols (A : NPMat) (n : ℕ) :
    (A.takeCols n).cols = min n A.cols := rfl

@[simp] theorem NPMat.takeRows_rows (A : NPMat) (n : ℕ) :
    (A.takeRows n).rows = min n A.rows := rfl

@[simp] theorem NPMat.takeRows_cols (A : NPMat) (n : ℕ) : (A.takeRows n).cols = A.cols := rfl

@[simp] theorem NPMat.diag_length (A : NPMat) : A.diag.length = min A.rows A.cols := by
  simp [NPMat.diag]

theorem NPMat.npAdd_eq_of_shape {A B : NPMat} (hr : A.rows = B.rows) (hc : A.cols = B.cols) :
    A.npAdd B = some ⟨A.rows, A.cols,
      (List.range A.rows).map fun i => (List.range A.cols).map fun j =>
        A.entry (bidx A.rows i) (bidx A.cols j) + B.entry (bidx B.rows i) (bidx B.cols j)⟩ := by
  simp [NPMat.npAdd, bcastDim, hr, hc]

theorem NPMat.npAdd_none_of_shape {A B : NPMat} (hr : A.rows ≠ B.rows) (hr1 : A.rows ≠ 1)
    (hr2 : B.rows ≠ 1) : A.npAdd B = none := by
  simp [NPMat.npAdd, bcastDim, hr, hr1, hr2]

/-! ## Entry lemmas -/

theorem NPMat.entry_transpose (A : NPMat) {i j : ℕ} (hi : i < A.rows) (hj : j < A.cols) :
    A.transpose.entry j i = A.entry i j := by
  have h : A.transpose.data = (List.range A.cols).map fun j =>
      (List.range A.rows).map fun i => A.entry i j := rfl
  show (A.transpose.data.getD j []).getD i 0 = A.entry i j
  rw [h, getD_map_range, if_pos hj, getD_map_range, if_pos hi]

theorem NPMat.entry_matmul (A B : NPMat) {i j : ℕ} (hi : i < A.rows) (hj : j < B.cols) :
    (A.matmul B).entry i j = ∑ k in Finset.range A.cols, A.entry i k * B.entry k j := by
  have h : (A.matmul B).data = (List.range A.rows).map fun i => (List.range B.cols).map
      fun j => ∑ k in Finset.range A.cols, A.entry i k * B.entry k j := rfl
  show ((A.matmul B).data.getD i []).getD j 0 = _
  rw [h, getD_map_range, if_pos hi, getD_map_range, if_pos hj]

theorem NPMat.entry_scale (c : ℚ) (A : NPMat) (i j : ℕ) :
    (A.scale c).entry i j = c * A.entry i j := by
  have h : (A.scale c).data = A.data.map fun r => r.map fun x => c * x := rfl
  show ((A.scale c).data.getD i []).getD j 0 = c * ((A.data.getD i []).getD j 0)
  rw [h, getD_map' (fun r => r.map fun x => c * x) A.data i [] [] rfl,
      getD_map' (fun x => c * x) _ j 0 0 (mul_zero c)]

theorem NPMat.entry_takeCols (A : NPMat) {j : ℕ} (n i : ℕ) (hj : j < n) :
    (A.takeCols n).entry i j = A.entry i j := by
  have h : (A.takeCols n).data = A.data.map fun r => r.take n := rfl
  show ((A.takeCols n).data.getD i []).getD j 0 = ((A.data.getD i []).getD j 0)
  rw [h, getD_map' (fun r => r.take n) A.data i [] [] List.take_nil, getD_take _ _ _ _ hj]

theorem NPMat.entry_takeRows (A : NPMat) {i : ℕ} (n j : ℕ) (hi : i < n) :
    (A.takeRows n).entry i j = A.entry i j := by
  have h : (A.takeRows n).data = A.data.take n := rfl
  show ((A.takeRows n).data.getD i []).getD j 0 = ((A.data.getD i []).getD j 0)
  rw [h, getD_take _ _ _ _ hi]

theorem NPMat.diag_getD (A : NPMat) {k : ℕ} (hk : k < min A.rows A.cols) :
    A.diag.getD k 0 = A.entry k k := by
  unfold NPMat.diag
  rw [getD_map_range, if_pos hk]

/-! ## Centering lemmas -/

theorem sum_map_sub {α : Type} (l : List α) (f g : α → ℚ) :
    (l.map fun x => f x - g x).sum = (l.map f).sum - (l.map g).sum := by
  induction l with
  | nil => simp
  | cons a t ih => simp [ih]; ring

theorem sum_map_const {α : Type} (l : List α) (c : ℚ) :
    (l.map fun _ => c).sum = (l.length : ℚ) * c := by
  induction l with
  | nil => simp
  | cons a t ih => simp [ih]; ring

@[simp] theorem subRowVec_rows (A : NPMat) (v : List ℚ) : (subRowVec A v).rows = A.rows := rfl

@[simp] theorem subRowVec_cols (A : NPMat) (v : List ℚ) : (subRowVec A v).cols = A.cols := rfl

theorem entry_subRowVec (A : NPMat) (v : List ℚ) {i j : ℕ} (hi : i < A.data.length)
    (hj : j < A.cols) : (subRowVec A v).entry i j = A.entry i j - v.getD j 0 := by
  have h : (subRowVec A v).data =
      A.data.map fun r => (List.range A.cols).map fun j => r.getD j 0 - v.getD j 0 := rfl
  show ((subRowVec A v).data.getD i []).getD j 0 = (A.data.getD i []).getD j 0 - v.getD j 0
  rw [h, List.getD_eq_getElem (A.data.map fun r =>
        (List.range A.cols).map fun j => r.getD j 0 - v.getD j 0) [] (by simpa using hi),
      List.getElem_map, getD_map_range, if_pos hj, List.getD_eq_getElem A.data [] hi]

theorem getCol_subRowVec (A : NPMat) (v : List ℚ) {j : ℕ} (hj : j < A.cols) :
    (subRowVec A v).getCol j = A.data.map fun r => r.getD j 0 - v.getD j 0 := by
  have h : (subRowVec A v).data =
      A.data.map fun r => (List.range A.cols).map fun j => r.getD j 0 - v.getD j 0 := rfl
  unfold NPMat.getCol
  rw [h, List.map_map]
  refine List.map_congr_left fun r _ => ?_
  simp only [Function.comp]
  rw [getD_map_range, if_pos hj]

theorem colMeans_getD (A : NPMat) {j : ℕ} (hj : j < A.cols) :
    (colMeans A).getD j 0 = (A.getCol j).sum / (A.rows : ℚ) := by
  unfold colMeans
  rw [getD_map_range, if_pos hj]

/-- Centering by the column means makes every column mean zero (over
exact rationals, provided there is at least one row). -/
theorem colMeans_subRowVec_colMeans (A : NPMat) (hlen : A.data.length = A.rows)
    (hr : 0 < A.rows) {j : ℕ} (hj : j < A.cols) :
    (colMeans (subRowVec A (colMeans A))).getD j 0 = 0 := by
  rw [colMeans_getD _ (by simpa using hj)]
  rw [show (subRowVec A (colMeans A)).rows = A.rows from rfl]
  rw [getCol_subRowVec _ _ hj, sum_map_sub, sum_map_const, hlen]
  rw [colMeans_getD _ hj]
  have hQ : (A.rows : ℚ) ≠ 0 := by positivity
  rw [show (A.getCol j).sum = (A.data.map fun r => r.getD j 0).sum from rfl]
  field_simp

/-! ## The alternating time partition -/

theorem length_split_id (b : ℕ) : (split_id b).length = 2 * b := by
  simp [split_id]; ring

theorem length_tile (l : List ℚ) (k : ℕ) : (tile l k).length = k * l.length := by
  induction k with
  | zero => simp [tile]
  | succ k ih =>
      simp only [tile, List.replicate_succ, List.flatten_cons, List.length_append]
      rw [show ((List.replicate k l).flatten).length = (tile l k).length from rfl, ih]
      ring

theorem npRound_cover (T d : ℕ) (hd : 0 < d) : T ≤ d * (npRoundNat T d + 1) := by
  have h1 : T / d ≤ npRoundNat T d := by
    unfold npRoundNat
    dsimp only
    split_ifs <;> omega
  have hdm := Nat.div_add_mod T d
  have hmod := Nat.mod_lt T hd
  calc T = d * (T / d) + T % d := hdm.symm
    _ ≤ d * (T / d) + d := by omega
    _ = d * (T / d + 1) := by ring
    _ ≤ d * (npRoundNat T d + 1) := Nat.mul_le_mul_left d (by omega)

theorem getD_tile (l : List ℚ) (k i : ℕ) (d : ℚ) (_hl : 0 < l.length)
    (hi : i < k * l.length) : (tile l k).getD i d = l.getD (i % l.length) d := by
  induction k generalizing i with
  | zero => omega
  | succ k ih =>
      simp only [tile, List.replicate_succ, List.flatten_cons]
      by_cases h : i < l.length
      · rw [List.getD_append _ _ _ _ h, Nat.mod_eq_of_lt h]
      · rw [List.getD_append_right _ _ _ _ (by omega)]
        rw [show (List.replicate k l).flatten = tile l k from rfl]
        rw [ih (i - l.length) (by
          have hexp : (k + 1) * l.length = k * l.length + l.length := by ring
          omega)]
        congr 1
        have hrep : i = (i - l.length) + l.length := by omega
        conv_rhs => rw [hrep]
        rw [Nat.add_mod_right]

theorem getD_replicate_q (n i : ℕ) (a d : ℚ) (h : i < n) :
    (List.replicate n a).getD i d = a := by
  rw [List.getD_eq_getElem _ _ (by simpa using h)]; simp

theorem getD_split_id (b j : ℕ) (hj : j < 2 * b) :
    (split_id b).getD j 2 = if j < b then 0 else 1 := by
  unfold split_id
  by_cases h : j < b
  · rw [List.getD_append _ _ _ _ (by simpa using h), getD_replicate_q _ _ _ _ h, if_pos h]
  · rw [List.getD_append_right _ _ _ _ (by simpa using h),
        getD_replicate_q _ _ _ _ (by simp; omega), if_neg h]

theorem time_id_length (T b : ℕ) (hb : 0 < b) : (time_id T b).length = T := by
  unfold time_id
  rw [List.length_take, length_tile, length_split_id]
  have h1 := npRound_cover T (2 * b) (by omega)
  have h2 : (npRoundNat T (2 * b) + 1) * (2 * b) = 2 * b * (npRoundNat T (2 * b) + 1) := by
    ring
  omega

theorem time_id_getD (T b i : ℕ) (hb : 0 < b) (hi : i < T) :
    (time_id T b).getD i 2 = if i % (2 * b) < b then 0 else 1 := by
  unfold time_id
  rw [getD_take _ _ _ _ hi]
  have hcov := npRound_cover T (2 * b) (by omega)
  rw [getD_tile _ _ _ _ (by rw [length_split_id]; omega)
        (by
          rw [length_split_id]
          have h2 : (npRoundNat T (2 * b) + 1) * (2 * b) =
              2 * b * (npRoundNat T (2 * b) + 1) := by ring
          omega)]
  rw [length_split_id]
  exact getD_split_id b _ (Nat.mod_lt i (by omega))

/-- The block-parity form: index `i` lands in the train half iff its
`time_bins`-block index is even. -/
theorem time_id_parity (T b i : ℕ) (hb : 0 < b) (hi : i < T) :
    (time_id T b).getD i 2 = if i / b % 2 = 0 then 0 else 1 := by
  rw [time_id_getD T b i hb hi]
  have h2 : i / b % 2 = i % (b * 2) / b := (Nat.mod_mul_right_div_self i b 2).symm
  have hiff : i % (2 * b) < b ↔ i / b % 2 = 0 := by
    rw [h2, Nat.mul_comm b 2]
    exact (Nat.div_eq_zero_iff hb).symm
  by_cases h : i % (2 * b) < b
  · rw [if_pos h, if_pos (hiff.mp h)]
  · rw [if_neg h, if_neg (fun hc => h (hiff.mpr hc))]

theorem trainMask_getD (T b i : ℕ) (hb : 0 < b) (hi : i < T) :
    ((time_id T b).map fun x => decide (x = 0)).getD i false = decide (i / b % 2 = 0) := by
  rw [getD_map' (fun x : ℚ => decide (x = 0)) _ i 2 false (decide_eq_false (by norm_num))]
  rw [time_id_parity T b i hb hi]
  by_cases h : i / b % 2 = 0
  · simp [h]
  · simp [h]

theorem testMask_getD (T b i : ℕ) (hb : 0 < b) (hi : i < T) :
    ((time_id T b).map fun x => decide (x = 1)).getD i false = decide (i / b % 2 = 1) := by
  rw [getD_map' (fun x : ℚ => decide (x = 1)) _ i 2 false (decide_eq_false (by norm_num))]
  rw [time_id_parity T b i hb hi]
  have h01 : i / b % 2 = 0 ∨ i / b % 2 = 1 := by omega
  by_cases h : i / b % 2 = 0
  · simp [h]
  · have h1 : i / b % 2 = 1 := by omega
    simp [h, h1]

/-- C5: for a positive `time_bins`, the observation partition built at
lines 99-104 assigns the `T` indices in alternating contiguous blocks
of `time_bins` each — index `i` goes to train (value 0) when its block
index `i / time_bins` is even, to test (value 1) when odd — the first
block to train, the pattern truncated so each of the `T` indices gets
exactly one of the two marks. -/
theorem C5_alternating_time_blocks (T b : ℕ) (hb : 0 < b) :
    (time_id T b).length = T ∧
    (∀ i, i < T → (time_id T b).getD i 2 = if i / b % 2 = 0 then 0 else 1) ∧
    (∀ i, i < T →
      ((time_id T b).map fun x => decide (x = 0)).getD i false = decide (i / b % 2 = 0) ∧
      ((time_id T b).map fun x => decide (x = 1)).getD i false = decide (i / b % 2 = 1)) := by
  refine ⟨time_id_length T b hb, fun i hi => time_id_parity T b i hb hi, fun i hi => ?_⟩
  exact ⟨trainMask_getD T b i hb hi, testMask_getD T b i hb hi⟩

/-- Witness for C5 at `T = 5`, `time_bins = 2`. -/
theorem C5_alternating_time_blocks_witness :
    0 < 2 ∧
    ((time_id 5 2).length = 5 ∧
    (∀ i, i < 5 → (time_id 5 2).getD i 2 = if i / 2 % 2 = 0 then 0 else 1) ∧
    (∀ i, i < 5 →
      ((time_id 5 2).map fun x => decide (x = 0)).getD i false = decide (i / 2 % 2 = 0) ∧
      ((time_id 5 2).map fun x => decide (x = 1)).getD i false = decide (i / 2 % 2 = 1))) :=
  ⟨by norm_num, C5_alternating_time_blocks 5 2 (by norm_num)⟩

/-- C9: supplying both `bin_width` and `neuron_bins` emits the
configuration warning, execution continues, and the result is
identical to the call with `neuron_bins` left at its default of 16:
`bin_width` wins and `neuron_bins` is never read. -/
theorem C9_bin_width_precedence (gperm : ℕ → List ℚ → List ℚ) (X : NPMat)
    (position : List ℚ) (w : ℚ) (neuron_bins time_bins : ℕ) (shuffle : Bool)
    (seed : Option ℤ) :
    binWidthWarning ∈
      (split_data gperm X position (some w) neuron_bins time_bins shuffle seed).warnings ∧
    split_data gperm X position (some w) neuron_bins time_bins shuffle seed =
      split_data gperm X position (some w) 16 time_bins shuffle seed := by
  constructor
  · simp [split_data, split_raw]
  · rfl

/-- C4 counterexample: with `shuffle = true` the input array does not
survive the call — on a concrete 2-by-2 input whose columns the global
generator happens to reverse, the array afterwards differs from the
array before. -/
theorem C4_shuffle_mutates_X :
    (split_data (fun _ l => l.reverse) ⟨2, 2, [[1, 10], [2, 20]]⟩ [0, 1]
        none 1 1 true (some 0)).newX ≠ (⟨2, 2, [[1, 10], [2, 20]]⟩ : NPMat) := by
  have hx1 : shuffleX (fun _ l => l.reverse) ⟨2, 2, [[1, 10], [2, 20]]⟩ =
      ⟨2, 2, [[2, 20], [1, 10]]⟩ := by
    norm_num [shuffleX, NPMat.getCol, List.range_succ]
  have hX : (split_data (fun _ l => l.reverse) ⟨2, 2, [[1, 10], [2, 20]]⟩ [0, 1]
      none 1 1 true (some 0)).newX = ⟨2, 2, [[2, 20], [1, 10]]⟩ := by
    rw [split_data, split_raw]
    norm_num [hx1]
  rw [hX]
  intro h
  have hd := congrArg NPMat.data h
  norm_num at hd

/-- C4 amended: `split_data` leaves its input array untouched whenever
`shuffle` is false (the only mutation of `X` sits inside the shuffle
branch). -/
theorem C4_no_mutation_without_shuffle (gperm : ℕ → List ℚ → List ℚ) (X : NPMat)
    (position : List ℚ) (bin_width : Option ℚ) (neuron_bins time_bins : ℕ)
    (seed : Option ℤ) :
    (split_data gperm X position bin_width neuron_bins time_bins false seed).newX = X := rfl

/-- C3: the claim fails in the code: the seeded generator
`rng = np.random.RandomState(seed)` is constructed and never consulted;
the shuffle draws from the process-global generator instead.  First
conjunct: under `shuffle = true` the output is entirely independent of
the supplied seed.  Remaining conjuncts: at a concrete input, two calls
with the same seed 0 but the global generator in two successive states
(identity draw, then reversing draw) return different `Ftest`
matrices, so equal seeds do not give identical outputs. -/
theorem C3_shuffle_ignores_seed :
    (∀ (gperm : ℕ → List ℚ → List ℚ) (X : NPMat) (position : List ℚ)
      (bin_width : Option ℚ) (neuron_bins time_bins : ℕ) (s1 s2 : Option ℤ),
      split_data gperm X position bin_width neuron_bins time_bins true s1 =
        split_data gperm X position bin_width neuron_bins time_bins true s2) ∧
    (split_data (fun _ l => l) ⟨2, 2, [[1, 10], [2, 20]]⟩ [0, 1]
        none 1 1 true (some 0)).Ftest.entry 0 0 = 10 ∧
    (split_data (fun _ l => l.reverse) ⟨2, 2, [[1, 10], [2, 20]]⟩ [0, 1]
        none 1 1 true (some 0)).Ftest.entry 0 0 = -10 := by
  refine ⟨fun _ _ _ _ _ _ _ _ => rfl, ?_, ?_⟩
  · have hx1 : shuffleX (fun _ l => l) ⟨2, 2, [[1, 10], [2, 20]]⟩ =
        ⟨2, 2, [[1, 10], [2, 20]]⟩ := by
      norm_num [shuffleX, NPMat.getCol, List.range_succ]
    have hbins : arange 0 2 1 = [0, 1] := by
      norm_num [arange, (show Int.toNat 2 = 2 from rfl), List.range_succ]
    have htid : time_id 2 1 = [0, 1] := by
      norm_num [time_id, tile, split_id, npRoundNat, List.replicate]
    have hd0 : digitize 0 [0, 1] = 1 := by norm_num [digitize]
    have hd1 : digitize 1 [0, 1] = 2 := by norm_num [digitize]
    have hnid : neuronIdOf [0, 1] none 1 = [false, true] := by
      norm_num [neuronIdOf, bwOf, npMin, npMax, hbins, hd0, hd1]
    have hraw : split_raw (fun _ l => l) ⟨2, 2, [[1, 10], [2, 20]]⟩ [0, 1]
        none 1 1 true (some 0) =
        ⟨[], ⟨2, 2, [[1, 10], [2, 20]]⟩, ⟨1, 1, [[10]]⟩, ⟨1, 1, [[20]]⟩,
          ⟨1, 1, [[1]]⟩, ⟨1, 1, [[2]]⟩⟩ := by
      rw [split_raw]
      norm_num [hx1, hnid, htid, NPMat.selectRows, NPMat.selectCols, List.range_succ]
    rw [split_data, hraw]
    norm_num [center2, colMeans, subRowVec, NPMat.getCol, NPMat.entry, List.range_succ]
  · have hx1 : shuffleX (fun _ l => l.reverse) ⟨2, 2, [[1, 10], [2, 20]]⟩ =
        ⟨2, 2, [[2, 20], [1, 10]]⟩ := by
      norm_num [shuffleX, NPMat.getCol, List.range_succ]
    have hbins : arange 0 2 1 = [0, 1] := by
      norm_num [arange, (show Int.toNat 2 = 2 from rfl), List.range_succ]
    have htid : time_id 2 1 = [0, 1] := by
      norm_num [time_id, tile, split_id, npRoundNat, List.replicate]
    have hd0 : digitize 0 [0, 1] = 1 := by norm_num [digitize]
    have hd1 : digitize 1 [0, 1] = 2 := by norm_num [digitize]
    have hnid : neuronIdOf [0, 1] none 1 = [false, true] := by
      norm_num [neuronIdOf, bwOf, npMin, npMax, hbins, hd0, hd1]
    have hraw : split_raw (fun _ l => l.reverse) ⟨2, 2, [[1, 10], [2, 20]]⟩ [0, 1]
        none 1 1 true (some 0) =
        ⟨[], ⟨2, 2, [[2, 20], [1, 10]]⟩, ⟨1, 1, [[20]]⟩, ⟨1, 1, [[10]]⟩,
          ⟨1, 1, [[2]]⟩, ⟨1, 1, [[1]]⟩⟩ := by
      rw [split_raw]
      norm_num [hx1, hnid, htid, NPMat.selectRows, NPMat.selectCols, List.range_succ]
    rw [split_data, hraw]
    norm_num [center2, colMeans, subRowVec, NPMat.getCol, NPMat.entry, List.range_succ]

/-! ## Shape bookkeeping of the double partition -/

theorem filter_not_length {α : Type} (l : List α) (p : α → Bool) :
    (l.filter p).length + (l.filter fun a => !(p a)).length = l.length := by
  induction l with
  | nil => simp
  | cons a t ih =>
      by_cases h : p a = true
      · simp [List.filter_cons, h]; omega
      · simp only [List.filter_cons, h, Bool.not_eq_true] at *
        simp [h, List.length_cons]
        omega

theorem getD_map_not (l : List Bool) {j : ℕ} (h : j < l.length) :
    (l.map fun x => !x).getD j false = !(l.getD j false) := by
  rw [List.getD_eq_getElem _ _ (by simpa using h), List.getElem_map,
      List.getD_eq_getElem _ _ h]

/-- C6: the quadruplet's shape invariants — train halves share a row
count, test halves share a row count, each feature group keeps its
column count across train/test, the two groups' column counts sum to
the feature count of `X`, and every feature index lands in exactly one
of the two groups (group F where the even/odd bin mask is true, group G
where it is false). -/
theorem C6_partition_invariants (gperm : ℕ → List ℚ → List ℚ) (X : NPMat)
    (position : List ℚ) (bin_width : Option ℚ) (neuron_bins time_bins : ℕ)
    (shuffle : Bool) (seed : Option ℤ)
    (hpos : position.length = X.cols) :
    let res := split_data gperm X position bin_width neuron_bins time_bins shuffle seed
    let mask := neuronIdOf position bin_width neuron_bins
    res.Ftrain.rows = res.Gtrain.rows ∧
    res.Ftest.rows = res.Gtest.rows ∧
    res.Ftrain.cols = res.Ftest.cols ∧
    res.Gtrain.cols = res.Gtest.cols ∧
    res.Ftrain.cols + res.Gtrain.cols = X.cols ∧
    (∀ j, j < X.cols → (mask.getD j false = true ↔
      ¬ ((mask.map fun x => !x).getD j false = true))) := by
  intro res mask
  have hmlen : mask.length = X.cols := by
    simp [mask, neuronIdOf, hpos]
  refine ⟨rfl, rfl, rfl, rfl, ?_, ?_⟩
  · show ((List.range (if shuffle then shuffleX gperm X else X).cols).filter
        fun j => mask.getD j false).length +
      ((List.range (if shuffle then shuffleX gperm X else X).cols).filter
        fun j => (mask.map fun x => !x).getD j false).length = X.cols
    have hc : (if shuffle then shuffleX gperm X else X).cols = X.cols := by
      cases shuffle <;> rfl
    rw [hc]
    have hcong : (List.range X.cols).filter (fun j => (mask.map fun x => !x).getD j false) =
        (List.range X.cols).filter fun j => !(mask.getD j false) := by
      refine List.filter_congr fun j hj => ?_
      rw [getD_map_not mask (by rw [hmlen]; exact List.mem_range.mp hj)]
    rw [hcong]
    have := filter_not_length (List.range X.cols) fun j => mask.getD j false
    simpa using this
  · intro j hj
    rw [getD_map_not mask (by omega)]
    cases h : mask.getD j false <;> simp [h]

/-- Witness for C6 on a concrete 2-observation, 2-feature input. -/
theorem C6_partition_invariants_witness :
    ([(0:ℚ), 1].length = (⟨2, 2, [[1, 10], [2, 20]]⟩ : NPMat).cols) ∧
    (let res := split_data (fun _ l => l) ⟨2, 2, [[1, 10], [2, 20]]⟩ [0, 1] none 1 1 false none
     let mask := neuronIdOf [0, 1] none 1
     res.Ftrain.rows = res.Gtrain.rows ∧
     res.Ftest.rows = res.Gtest.rows ∧
     res.Ftrain.cols = res.Ftest.cols ∧
     res.Gtrain.cols = res.Gtest.cols ∧
     res.Ftrain.cols + res.Gtrain.cols = (⟨2, 2, [[1, 10], [2, 20]]⟩ : NPMat).cols ∧
     (∀ j, j < (⟨2, 2, [[1, 10], [2, 20]]⟩ : NPMat).cols → (mask.getD j false = true ↔
       ¬ ((mask.map fun x => !x).getD j false = true)))) :=
  ⟨rfl, C6_partition_invariants (fun _ l => l) ⟨2, 2, [[1, 10], [2, 20]]⟩ [0, 1]
    none 1 1 false none rfl⟩

/-! ## Centering claims -/

theorem X1_rows (gperm : ℕ → List ℚ → List ℚ) (X : NPMat) (shuffle : Bool) :
    (if shuffle then shuffleX gperm X else X).rows = X.rows := by
  cases shuffle <;> rfl

theorem WFlen_selectRows (A : NPMat) (mask : List Bool) :
    (A.selectRows mask).data.length = (A.selectRows mask).rows := rfl

theorem WFlen_selectCols (A : NPMat) (mask : List Bool) (h : A.data.length = A.rows) :
    (A.selectCols mask).data.length = (A.selectCols mask).rows := by
  show (A.data.map _).length = A.rows
  rw [List.length_map]
  exact h

theorem rawFtrain_rows_pos (gperm : ℕ → List ℚ → List ℚ) (X : NPMat)
    (position : List ℚ) (bin_width : Option ℚ) (neuron_bins time_bins : ℕ)
    (shuffle : Bool) (seed : Option ℤ) (hT : 0 < X.rows) (hb : 0 < time_bins) :
    0 < (split_raw gperm X position bin_width neuron_bins time_bins shuffle seed).Ftrain.rows := by
  have h0 : ((time_id X.rows time_bins).map fun x => decide (x = 0)).getD 0 false = true := by
    rw [trainMask_getD X.rows time_bins 0 hb hT]
    norm_num
  rw [show (split_raw gperm X position bin_width neuron_bins time_bins shuffle seed).Ftrain.rows
      = (((List.range (if shuffle then shuffleX gperm X else X).rows).filter fun i =>
          ((time_id X.rows time_bins).map fun x => decide (x = 0)).getD i false).map fun i =>
          (if shuffle then shuffleX gperm X else X).data.getD i []).length from rfl]
  rw [List.length_map]
  have h0mem : 0 ∈ (List.range (if shuffle then shuffleX gperm X else X).rows).filter
      (fun i => ((time_id X.rows time_bins).map fun x => decide (x = 0)).getD i false) :=
    List.mem_filter.mpr ⟨List.mem_range.mpr (by rw [X1_rows]; exact hT), h0⟩
  exact List.length_pos_of_mem h0mem

/-- C2: after `split_data`, every column of the returned `Ftrain` has
exact mean zero, and each of the four returned matrices is the raw
slice with the corresponding column mean of the raw train half
subtracted — in particular `Ftest` is centered by the `Ftrain` mean,
not by its own, and likewise for the G pair. -/
theorem C2_train_mean_centering (gperm : ℕ → List ℚ → List ℚ) (X : NPMat)
    (position : List ℚ) (bin_width : Option ℚ) (neuron_bins time_bins : ℕ)
    (shuffle : Bool) (seed : Option ℤ) (hT : 0 < X.rows) (hb : 0 < time_bins) :
    let raw := split_raw gperm X position bin_width neuron_bins time_bins shuffle seed
    let res := split_data gperm X position bin_width neuron_bins time_bins shuffle seed
    (∀ j, j < res.Ftrain.cols → (colMeans res.Ftrain).getD j 0 = 0) ∧
    (∀ j, j < res.Gtrain.cols → (colMeans res.Gtrain).getD j 0 = 0) ∧
    (∀ i j, i < raw.Ftrain.rows → j < raw.Ftrain.cols →
      res.Ftrain.entry i j = raw.Ftrain.entry i j - (colMeans raw.Ftrain).getD j 0) ∧
    (∀ i j, i < raw.Ftest.rows → j < raw.Ftest.cols →
      res.Ftest.entry i j = raw.Ftest.entry i j - (colMeans raw.Ftrain).getD j 0) ∧
    (∀ i j, i < raw.Gtrain.rows → j < raw.Gtrain.cols →
      res.Gtrain.entry i j = raw.Gtrain.entry i j - (colMeans raw.Gtrain).getD j 0) ∧
    (∀ i j, i < raw.Gtest.rows → j < raw.Gtest.cols →
      res.Gtest.entry i j = raw.Gtest.entry i j - (colMeans raw.Gtrain).getD j 0) := by
  intro raw res
  have hlenFtr : raw.Ftrain.data.length = raw.Ftrain.rows :=
    WFlen_selectCols _ _ (WFlen_selectRows _ _)
  have hlenFte : raw.Ftest.data.length = raw.Ftest.rows :=
    WFlen_selectCols _ _ (WFlen_selectRows _ _)
  have hlenGtr : raw.Gtrain.data.length = raw.Gtrain.rows :=
    WFlen_selectCols _ _ (WFlen_selectRows _ _)
  have hlenGte : raw.Gtest.data.length = raw.Gtest.rows :=
    WFlen_selectCols _ _ (WFlen_selectRows _ _)
  have hrF : 0 < raw.Ftrain.rows :=
    rawFtrain_rows_pos gperm X position bin_width neuron_bins time_bins shuffle seed hT hb
  have hrG : 0 < raw.Gtrain.rows := hrF
  refine ⟨fun j hj => ?_, fun j hj => ?_, fun i j hi hj => ?_, fun i j hi hj => ?_,
    fun i j hi hj => ?_, fun i j hi hj => ?_⟩
  · exact colMeans_subRowVec_colMeans raw.Ftrain hlenFtr hrF hj
  · exact colMeans_subRowVec_colMeans raw.Gtrain hlenGtr hrG hj
  · exact entry_subRowVec raw.Ftrain (colMeans raw.Ftrain) (by omega) hj
  · exact entry_subRowVec raw.Ftest (colMeans raw.Ftrain) (by omega) hj
  · exact entry_subRowVec raw.Gtrain (colMeans raw.Gtrain) (by omega) hj
  · exact entry_subRowVec raw.Gtest (colMeans raw.Gtrain) (by omega) hj

/-- Witness for C2 on a concrete 2-observation, 2-feature input. -/
theorem C2_train_mean_centering_witness :
    (0 < (⟨2, 2, [[1, 10], [2, 20]]⟩ : NPMat).rows ∧ 0 < 1) ∧
    (let raw := split_raw (fun _ l => l) ⟨2, 2, [[1, 10], [2, 20]]⟩ [0, 1] none 1 1 false none
     let res := split_data (fun _ l => l) ⟨2, 2, [[1, 10], [2, 20]]⟩ [0, 1] none 1 1 false none
     (∀ j, j < res.Ftrain.cols → (colMeans res.Ftrain).getD j 0 = 0) ∧
     (∀ j, j < res.Gtrain.cols → (colMeans res.Gtrain).getD j 0 = 0) ∧
     (∀ i j, i < raw.Ftrain.rows → j < raw.Ftrain.cols →
       res.Ftrain.entry i j = raw.Ftrain.entry i j - (colMeans raw.Ftrain).getD j 0) ∧
     (∀ i j, i < raw.Ftest.rows → j < raw.Ftest.cols →
       res.Ftest.entry i j = raw.Ftest.entry i j - (colMeans raw.Ftrain).getD j 0) ∧
     (∀ i j, i < raw.Gtrain.rows → j < raw.Gtrain.cols →
       res.Gtrain.entry i j = raw.Gtrain.entry i j - (colMeans raw.Gtrain).getD j 0) ∧
     (∀ i j, i < raw.Gtest.rows → j < raw.Gtest.cols →
       res.Gtest.entry i j = raw.Gtest.entry i j - (colMeans raw.Gtrain).getD j 0)) :=
  ⟨⟨by norm_num, by norm_num⟩,
    C2_train_mean_centering (fun _ l => l) ⟨2, 2, [[1, 10], [2, 20]]⟩ [0, 1] none 1 1
      false none (by norm_num) (by norm_num)⟩

/-! ## svca: shape facts -/

@[simp] theorem crossCov_rows (A B : NPMat) : (crossCov A B).rows = A.cols := rfl

@[simp] theorem crossCov_cols (A B : NPMat) : (crossCov A B).cols = B.cols := rfl

@[simp] theorem S_hatOf_rows (U Vh C : NPMat) (nd : ℕ) :
    (S_hatOf U Vh C nd).rows = min nd U.cols := rfl

@[simp] theorem S_hatOf_cols (U Vh C : NPMat) (nd : ℕ) :
    (S_hatOf U Vh C nd).cols = min nd Vh.rows := rfl

@[simp] theorem S_FOf_rows (U C : NPMat) (nd : ℕ) : (S_FOf U C nd).rows = min nd U.cols := rfl

@[simp] theorem S_FOf_cols (U C : NPMat) (nd : ℕ) : (S_FOf U C nd).cols = min nd U.cols := rfl

@[simp] theorem S_GOf_rows (Vh C : NPMat) (nd : ℕ) : (S_GOf Vh C nd).rows = min nd Vh.rows := rfl

@[simp] theorem S_GOf_cols (Vh C : NPMat) (nd : ℕ) : (S_GOf Vh C nd).cols = min nd Vh.rows := rfl

theorem idM_WF (n : ℕ) : (idM n).WF := by
  constructor
  · simp [idM]
  · intro r hr
    simp only [idM, List.mem_map, List.mem_range] at hr
    obtain ⟨i, _, rfl⟩ := hr
    simp [idM]

theorem svdId_ok : SvdOK svdId :=
  fun C => ⟨rfl, rfl, rfl, rfl, idM_WF C.rows, idM_WF C.cols⟩

theorem svca_none_iff_of_nd (svd : NPMat → NPMat × NPMat) (hsvd : SvdOK svd)
    (Ftrain Ftest Gtrain Gtest : NPMat) (n_dims : Option ℕ)
    (hnd : n_dims.getD (min Ftrain.cols Gtrain.cols) ≤ min Ftrain.cols Gtrain.cols) :
    (svca svd Ftrain Ftest Gtrain Gtest n_dims = none ↔
      ¬ (Ftrain.cols = Ftest.cols ∧ Gtrain.cols = Gtest.cols ∧
         Ftrain.rows = Gtrain.rows ∧ Ftest.rows = Gtest.rows)) := by
  by_cases hpre : Ftrain.cols = Ftest.cols ∧ Gtrain.cols = Gtest.cols ∧
      Ftrain.rows = Gtrain.rows ∧ Ftest.rows = Gtest.rows
  · obtain ⟨hU1, hU2, hV1, hV2, hUW, hVW⟩ := hsvd (crossCov Ftrain Gtrain)
    have hUc : (svd (crossCov Ftrain Gtrain)).1.cols = Ftrain.cols := by
      rw [hU2]; rfl
    have hVr : (svd (crossCov Ftrain Gtrain)).2.rows = Gtrain.cols := by
      rw [hV1]; rfl
    have hshape : (S_FOf (svd (crossCov Ftrain Gtrain)).1 (crossCov Ftest Ftest)
          (n_dims.getD (min Ftrain.cols Gtrain.cols))).rows =
        (S_GOf (svd (crossCov Ftrain Gtrain)).2 (crossCov Gtest Gtest)
          (n_dims.getD (min Ftrain.cols Gtrain.cols))).rows := by
      simp only [S_FOf_rows, S_GOf_rows, hUc, hVr]
      omega
    have hshape2 : (S_FOf (svd (crossCov Ftrain Gtrain)).1 (crossCov Ftest Ftest)
          (n_dims.getD (min Ftrain.cols Gtrain.cols))).cols =
        (S_GOf (svd (crossCov Ftrain Gtrain)).2 (crossCov Gtest Gtest)
          (n_dims.getD (min Ftrain.cols Gtrain.cols))).cols := by
      simp only [S_FOf_cols, S_GOf_cols, hUc, hVr]
      omega
    simp only [svca, if_pos hpre]
    rw [NPMat.npAdd_eq_of_shape hshape hshape2]
    simp [hpre]
  · simp [svca, hpre]

/-- C7: for any SVD returning full square bases and any `n_dims` in the
documented domain (omitted, or at most `min(N_F, N_G)`), `svca` fails
precisely when one of the four shape preconditions is violated; the
check depends only on the shapes of the four inputs (it holds for every
`svd`), i.e. it happens before any covariance or SVD work. -/
theorem C7_fail_iff_shape_mismatch (svd : NPMat → NPMat × NPMat) (hsvd : SvdOK svd)
    (Ftrain Ftest Gtrain Gtest : NPMat) (n_dims : Option ℕ)
    (hnd : n_dims = none ∨ ∃ nd, n_dims = some nd ∧ nd ≤ min Ftrain.cols Gtrain.cols) :
    (svca svd Ftrain Ftest Gtrain Gtest n_dims = none ↔
      ¬ (Ftrain.cols = Ftest.cols ∧ Gtrain.cols = Gtest.cols ∧
         Ftrain.rows = Gtrain.rows ∧ Ftest.rows = Gtest.rows)) := by
  apply svca_none_iff_of_nd svd hsvd
  rcases hnd with h | ⟨nd, rfl, h⟩
  · subst h; simp
  · simpa using h

/-- Witness for C7 with the identity SVD stand-in on 1-by-1 inputs. -/
theorem C7_fail_iff_shape_mismatch_witness :
    SvdOK svdId ∧
    ((none : Option ℕ) = none ∨ ∃ nd, (none : Option ℕ) = some nd ∧
      nd ≤ min (⟨1, 1, [[1]]⟩ : NPMat).cols (⟨1, 1, [[2]]⟩ : NPMat).cols) ∧
    (svca svdId ⟨1, 1, [[1]]⟩ ⟨1, 1, [[3]]⟩ ⟨1, 1, [[2]]⟩ ⟨1, 1, [[4]]⟩ none = none ↔
      ¬ ((⟨1, 1, [[1]]⟩ : NPMat).cols = (⟨1, 1, [[3]]⟩ : NPMat).cols ∧
         (⟨1, 1, [[2]]⟩ : NPMat).cols = (⟨1, 1, [[4]]⟩ : NPMat).cols ∧
         (⟨1, 1, [[1]]⟩ : NPMat).rows = (⟨1, 1, [[2]]⟩ : NPMat).rows ∧
         (⟨1, 1, [[3]]⟩ : NPMat).rows = (⟨1, 1, [[4]]⟩ : NPMat).rows)) :=
  ⟨svdId_ok, Or.inl rfl,
    C7_fail_iff_shape_mismatch svdId svdId_ok ⟨1, 1, [[1]]⟩ ⟨1, 1, [[3]]⟩ ⟨1, 1, [[2]]⟩
      ⟨1, 1, [[4]]⟩ none (Or.inl rfl)⟩

/-- C8: with the shape preconditions satisfied and a positive
`n_dims` at most `min(N_F, N_G)`, `svca` succeeds, `SVC1` has
`Ftest.rows × n_dims`, `SVC2` has `Gtest.rows × n_dims`, and both
variance vectors have length `n_dims`. -/
theorem C8_output_shapes (svd : NPMat → NPMat × NPMat) (hsvd : SvdOK svd)
    (Ftrain Ftest Gtrain Gtest : NPMat) (nd : ℕ)
    (hpre : Ftrain.cols = Ftest.cols ∧ Gtrain.cols = Gtest.cols ∧
       Ftrain.rows = Gtrain.rows ∧ Ftest.rows = Gtest.rows)
    (_hnd0 : 0 < nd) (hnd : nd ≤ min Ftrain.cols Gtrain.cols) :
    ∃ rv av SVC1 SVC2,
      svca svd Ftrain Ftest Gtrain Gtest (some nd) = some (rv, av, SVC1, SVC2) ∧
      rv.length = nd ∧ av.length = nd ∧
      SVC1.rows = Ftest.rows ∧ SVC1.cols = nd ∧
      SVC2.rows = Gtest.rows ∧ SVC2.cols = nd := by
  obtain ⟨hU1, hU2, hV1, hV2, hUW, hVW⟩ := hsvd (crossCov Ftrain Gtrain)
  have hUc : (svd (crossCov Ftrain Gtrain)).1.cols = Ftrain.cols := by rw [hU2]; rfl
  have hVr : (svd (crossCov Ftrain Gtrain)).2.rows = Gtrain.cols := by rw [hV1]; rfl
  have hshape : (S_FOf (svd (crossCov Ftrain Gtrain)).1 (crossCov Ftest Ftest) nd).rows =
      (S_GOf (svd (crossCov Ftrain Gtrain)).2 (crossCov Gtest Gtest) nd).rows := by
    simp only [S_FOf_rows, S_GOf_rows, hUc, hVr]; omega
  have hshape2 : (S_FOf (svd (crossCov Ftrain Gtrain)).1 (crossCov Ftest Ftest) nd).cols =
      (S_GOf (svd (crossCov Ftrain Gtrain)).2 (crossCov Gtest Gtest) nd).cols := by
    simp only [S_FOf_cols, S_GOf_cols, hUc, hVr]; omega
  simp only [svca, if_pos hpre, Option.getD_some]
  rw [NPMat.npAdd_eq_of_shape hshape hshape2]
  refine ⟨_, _, _, _, rfl, ?_, ?_, rfl, ?_, rfl, ?_⟩
  · simp only [NPMat.diag_length, S_hatOf_rows, S_hatOf_cols, hUc, hVr]; omega
  · simp only [List.length_map, NPMat.diag_length, S_FOf_rows, S_FOf_cols, hUc]; omega
  · simp only [NPMat.matmul_cols, NPMat.takeCols_cols, hUc]; omega
  · simp only [NPMat.matmul_cols, NPMat.transpose_cols, NPMat.takeRows_rows, hVr]; omega

/-- Witness for C8 with the identity SVD stand-in on 1-by-1 inputs. -/
theorem C8_output_shapes_witness :
    SvdOK svdId ∧
    ((⟨1, 1, [[1]]⟩ : NPMat).cols = (⟨1, 1, [[3]]⟩ : NPMat).cols ∧
     (⟨1, 1, [[2]]⟩ : NPMat).cols = (⟨1, 1, [[4]]⟩ : NPMat).cols ∧
     (⟨1, 1, [[1]]⟩ : NPMat).rows = (⟨1, 1, [[2]]⟩ : NPMat).rows ∧
     (⟨1, 1, [[3]]⟩ : NPMat).rows = (⟨1, 1, [[4]]⟩ : NPMat).rows) ∧
    0 < 1 ∧ 1 ≤ min (⟨1, 1, [[1]]⟩ : NPMat).cols (⟨1, 1, [[2]]⟩ : NPMat).cols ∧
    (∃ rv av SVC1 SVC2,
      svca svdId ⟨1, 1, [[1]]⟩ ⟨1, 1, [[3]]⟩ ⟨1, 1, [[2]]⟩ ⟨1, 1, [[4]]⟩ (some 1) =
        some (rv, av, SVC1, SVC2) ∧
      rv.length = 1 ∧ av.length = 1 ∧
      SVC1.rows = (⟨1, 1, [[3]]⟩ : NPMat).rows ∧ SVC1.cols = 1 ∧
      SVC2.rows = (⟨1, 1, [[4]]⟩ : NPMat).rows ∧ SVC2.cols = 1) :=
  ⟨svdId_ok, ⟨rfl, rfl, rfl, rfl⟩, by norm_num, by norm_num,
    C8_output_shapes svdId svdId_ok ⟨1, 1, [[1]]⟩ ⟨1, 1, [[3]]⟩ ⟨1, 1, [[2]]⟩ ⟨1, 1, [[4]]⟩ 1
      ⟨rfl, rfl, rfl, rfl⟩ (by norm_num) (by norm_num)⟩

/-- C10 counterexample: with valid shape preconditions, feature counts
2 and 3, and `n_dims = 3 > min = 2`, the clamped bases have sizes 2
and 3, `S_F + S_G` fails to broadcast, and the call raises — refuting
"the call does not raise" for oversized `n_dims`. -/
theorem C10_oversized_raises_counterexample :
    ((⟨1, 2, [[1, 2]]⟩ : NPMat).cols = (⟨1, 2, [[1, 2]]⟩ : NPMat).cols ∧
     (⟨1, 3, [[1, 2, 3]]⟩ : NPMat).cols = (⟨1, 3, [[1, 2, 3]]⟩ : NPMat).cols ∧
     (⟨1, 2, [[1, 2]]⟩ : NPMat).rows = (⟨1, 3, [[1, 2, 3]]⟩ : NPMat).rows ∧
     (⟨1, 2, [[1, 2]]⟩ : NPMat).rows = (⟨1, 3, [[1, 2, 3]]⟩ : NPMat).rows) ∧
    min (⟨1, 2, [[1, 2]]⟩ : NPMat).cols (⟨1, 3, [[1, 2, 3]]⟩ : NPMat).cols < 3 ∧
    svca svdId ⟨1, 2, [[1, 2]]⟩ ⟨1, 2, [[1, 2]]⟩ ⟨1, 3, [[1, 2, 3]]⟩ ⟨1, 3, [[1, 2, 3]]⟩
      (some 3) = none := by
  refine ⟨⟨rfl, rfl, rfl, rfl⟩, by norm_num, by decide⟩

/-- C10 amended: `svca` never validates `n_dims`.  When the two
feature groups have the same width `m`, any `n_dims > m` silently
clamps: the call succeeds with no warning and both variance vectors
come back with length `m = min(N_F, N_G)` instead of `n_dims`.  (When
the widths differ the outcome depends on the clamped sizes: with
widths 2 and 3 the `S_F + S_G` broadcast fails and the call raises —
see the counterexample — while a clamped basis of width 1 broadcasts
instead.) -/
theorem C10_oversized_n_dims_clamps (svd : NPMat → NPMat × NPMat) (hsvd : SvdOK svd)
    (Ftrain Ftest Gtrain Gtest : NPMat) (nd : ℕ)
    (hpre : Ftrain.cols = Ftest.cols ∧ Gtrain.cols = Gtest.cols ∧
       Ftrain.rows = Gtrain.rows ∧ Ftest.rows = Gtest.rows)
    (hsq : Ftrain.cols = Gtrain.cols)
    (hbig : min Ftrain.cols Gtrain.cols < nd) :
    ∃ rv av SVC1 SVC2,
      svca svd Ftrain Ftest Gtrain Gtest (some nd) = some (rv, av, SVC1, SVC2) ∧
      rv.length = min Ftrain.cols Gtrain.cols ∧
      av.length = min Ftrain.cols Gtrain.cols := by
  obtain ⟨hU1, hU2, hV1, hV2, hUW, hVW⟩ := hsvd (crossCov Ftrain Gtrain)
  have hUc : (svd (crossCov Ftrain Gtrain)).1.cols = Ftrain.cols := by rw [hU2]; rfl
  have hVr : (svd (crossCov Ftrain Gtrain)).2.rows = Gtrain.cols := by rw [hV1]; rfl
  have hshape : (S_FOf (svd (crossCov Ftrain Gtrain)).1 (crossCov Ftest Ftest) nd).rows =
      (S_GOf (svd (crossCov Ftrain Gtrain)).2 (crossCov Gtest Gtest) nd).rows := by
    simp only [S_FOf_rows, S_GOf_rows, hUc, hVr]; omega
  have hshape2 : (S_FOf (svd (crossCov Ftrain Gtrain)).1 (crossCov Ftest Ftest) nd).cols =
      (S_GOf (svd (crossCov Ftrain Gtrain)).2 (crossCov Gtest Gtest) nd).cols := by
    simp only [S_FOf_cols, S_GOf_cols, hUc, hVr]; omega
  simp only [svca, Option.getD_some, if_pos hpre]
  rw [NPMat.npAdd_eq_of_shape hshape hshape2]
  refine ⟨_, _, _, _, rfl, ?_, ?_⟩
  · simp only [NPMat.diag_length, S_hatOf_rows, S_hatOf_cols, hUc, hVr]; omega
  · simp only [List.length_map, NPMat.diag_length, S_FOf_rows, S_FOf_cols, hUc]; omega

/-- Witness for C10's amended statement: square groups of width 1,
`n_dims = 2`; the outputs come back with length 1. -/
theorem C10_oversized_n_dims_clamps_witness :
    SvdOK svdId ∧
    ((⟨1, 1, [[1]]⟩ : NPMat).cols = (⟨1, 1, [[3]]⟩ : NPMat).cols ∧
     (⟨1, 1, [[2]]⟩ : NPMat).cols = (⟨1, 1, [[4]]⟩ : NPMat).cols ∧
     (⟨1, 1, [[1]]⟩ : NPMat).rows = (⟨1, 1, [[2]]⟩ : NPMat).rows ∧
     (⟨1, 1, [[3]]⟩ : NPMat).rows = (⟨1, 1, [[4]]⟩ : NPMat).rows) ∧
    (⟨1, 1, [[1]]⟩ : NPMat).cols = (⟨1, 1, [[2]]⟩ : NPMat).cols ∧
    min (⟨1, 1, [[1]]⟩ : NPMat).cols (⟨1, 1, [[2]]⟩ : NPMat).cols < 2 ∧
    (∃ rv av SVC1 SVC2,
      svca svdId ⟨1, 1, [[1]]⟩ ⟨1, 1, [[3]]⟩ ⟨1, 1, [[2]]⟩ ⟨1, 1, [[4]]⟩ (some 2) =
        some (rv, av, SVC1, SVC2) ∧
      rv.length = min (⟨1, 1, [[1]]⟩ : NPMat).cols (⟨1, 1, [[2]]⟩ : NPMat).cols ∧
      av.length = min (⟨1, 1, [[1]]⟩ : NPMat).cols (⟨1, 1, [[2]]⟩ : NPMat).cols) :=
  ⟨svdId_ok, ⟨rfl, rfl, rfl, rfl⟩, rfl, by norm_num,
    C10_oversized_n_dims_clamps svdId svdId_ok ⟨1, 1, [[1]]⟩ ⟨1, 1, [[3]]⟩ ⟨1, 1, [[2]]⟩
      ⟨1, 1, [[4]]⟩ 2 ⟨rfl, rfl, rfl, rfl⟩ rfl (by norm_num)⟩

/-! ## Entry-level algebra for the variance formulas -/

theorem crossCov_entry (A B : NPMat) {i j : ℕ} (hi : i < A.cols) (hj : j < B.cols) :
    (crossCov A B).entry i j =
      (∑ t in Finset.range A.rows, A.entry t i * B.entry t j) / (A.rows : ℚ) := by
  unfold crossCov
  rw [NPMat.entry_scale, NPMat.entry_matmul A.transpose B (by simpa using hi) hj]
  rw [show A.transpose.cols = A.rows from rfl]
  rw [Finset.sum_congr rfl fun t ht =>
    congrArg (· * B.entry t j) (A.entry_transpose (Finset.mem_range.mp ht) hi)]
  rw [one_div, inv_mul_eq_div]

theorem S_hatOf_diag (U Vh C : NPMat) {nd k : ℕ} (hk : k < nd)
    (hU : nd ≤ U.cols) (hV : nd ≤ Vh.rows) (hUr : U.rows = C.rows) (hVc : Vh.cols = C.cols) :
    (S_hatOf U Vh C nd).entry k k =
      ∑ j in Finset.range C.cols,
        (∑ i in Finset.range C.rows, U.entry i k * C.entry i j) * Vh.entry k j := by
  unfold S_hatOf
  rw [NPMat.entry_matmul _ _
    (show k < min nd U.cols by omega) (show k < min nd Vh.rows by omega)]
  rw [show ((U.takeCols nd).transpose.matmul C).cols = C.cols from rfl]
  refine Finset.sum_congr rfl fun j hj => ?_
  have hjC : j < C.cols := Finset.mem_range.mp hj
  have hB : (Vh.takeRows nd).transpose.entry j k = Vh.entry k j := by
    rw [(Vh.takeRows nd).entry_transpose (show k < min nd Vh.rows by omega)
      (show j < Vh.cols by omega)]
    exact Vh.entry_takeRows nd j hk
  have hA : ((U.takeCols nd).transpose.matmul C).entry k j =
      ∑ i in Finset.range C.rows, U.entry i k * C.entry i j := by
    rw [NPMat.entry_matmul _ _ (show k < min nd U.cols by omega) hjC]
    rw [show (U.takeCols nd).transpose.cols = U.rows from rfl, hUr]
    refine Finset.sum_congr rfl fun i hi => ?_
    have hiC : i < C.rows := Finset.mem_range.mp hi
    rw [(U.takeCols nd).entry_transpose (show i < U.rows by omega)
      (show k < min nd U.cols by omega)]
    rw [U.entry_takeCols nd i hk]
  rw [hA, hB]

theorem S_FOf_diag (U C : NPMat) {nd k : ℕ} (hk : k < nd) (hU : nd ≤ U.cols)
    (hUr : U.rows = C.rows) :
    (S_FOf U C nd).entry k k =
      ∑ i2 in Finset.range C.cols,
        (∑ i in Finset.range C.rows, U.entry i k * C.entry i i2) * U.entry i2 k := by
  unfold S_FOf
  rw [NPMat.entry_matmul _ _
    (show k < min nd U.cols by omega) (show k < min nd U.cols by omega)]
  rw [show ((U.takeCols nd).transpose.matmul C).cols = C.cols from rfl]
  refine Finset.sum_congr rfl fun i2 hi2 => ?_
  have hi2C : i2 < C.cols := Finset.mem_range.mp hi2
  have hB : (U.takeCols nd).entry i2 k = U.entry i2 k := U.entry_takeCols nd i2 hk
  have hA : ((U.takeCols nd).transpose.matmul C).entry k i2 =
      ∑ i in Finset.range C.rows, U.entry i k * C.entry i i2 := by
    rw [NPMat.entry_matmul _ _ (show k < min nd U.cols by omega) hi2C]
    rw [show (U.takeCols nd).transpose.cols = U.rows from rfl, hUr]
    refine Finset.sum_congr rfl fun i hi => ?_
    have hiC : i < C.rows := Finset.mem_range.mp hi
    rw [(U.takeCols nd).entry_transpose (show i < U.rows by omega)
      (show k < min nd U.cols by omega)]
    rw [U.entry_takeCols nd i hk]
  rw [hA, hB]

theorem S_GOf_diag (Vh C : NPMat) {nd k : ℕ} (hk : k < nd) (hV : nd ≤ Vh.rows)
    (hVr : Vh.cols = C.rows) (hVc : Vh.cols = C.cols) :
    (S_GOf Vh C nd).entry k k =
      ∑ j2 in Finset.range C.cols,
        (∑ j in Finset.range C.rows, Vh.entry k j * C.entry j j2) * Vh.entry k j2 := by
  unfold S_GOf
  rw [NPMat.entry_matmul _ _
    (show k < min nd Vh.rows by omega) (show k < min nd Vh.rows by omega)]
  rw [show ((Vh.takeRows nd).matmul C).cols = C.cols from rfl]
  refine Finset.sum_congr rfl fun j2 hj2 => ?_
  have hj2C : j2 < C.cols := Finset.mem_range.mp hj2
  have hB : (Vh.takeRows nd).transpose.entry j2 k = Vh.entry k j2 := by
    rw [(Vh.takeRows nd).entry_transpose (show k < min nd Vh.rows by omega)
      (show j2 < Vh.cols by omega)]
    exact Vh.entry_takeRows nd j2 hk
  have hA : ((Vh.takeRows nd).matmul C).entry k j2 =
      ∑ j in Finset.range C.rows, Vh.entry k j * C.entry j j2 := by
    rw [NPMat.entry_matmul _ _ (show k < min nd Vh.rows by omega) hj2C]
    rw [show (Vh.takeRows nd).cols = Vh.cols from rfl, hVr]
    refine Finset.sum_congr rfl fun j hj => ?_
    have hjC : j < C.rows := Finset.mem_range.mp hj
    rw [Vh.entry_takeRows nd j hk]
  rw [hA, hB]

theorem bidx_of_lt {n i : ℕ} (h : i < n) : bidx n i = i := by
  unfold bidx
  split_ifs with h1
  · omega
  · rfl

theorem entry_npAdd_lit (A B : NPMat) {i j : ℕ} (hi : i < A.rows) (hj : j < A.cols)
    (hri : i < B.rows) (hji : j < B.cols) :
    (NPMat.mk A.rows A.cols ((List.range A.rows).map fun i => (List.range A.cols).map fun j =>
      A.entry (bidx A.rows i) (bidx A.cols j) +
        B.entry (bidx B.rows i) (bidx B.cols j))).entry i j =
      A.entry i j + B.entry i j := by
  show (((List.range A.rows).map fun i => (List.range A.cols).map fun j =>
      A.entry (bidx A.rows i) (bidx A.cols j) +
        B.entry (bidx B.rows i) (bidx B.cols j)).getD i []).getD j 0 = _
  rw [getD_map_range, if_pos hi, getD_map_range, if_pos hj,
      bidx_of_lt hi, bidx_of_lt hj, bidx_of_lt hri, bidx_of_lt hji]

/-- C1: under the shape preconditions, for a positive
`n_dims ≤ min(N_F, N_G)` and with `U`, `Vh` whatever bases the SVD
returns on `Ctrain = Ftrainᵀ·Gtrain / Ttrain`, `svca` returns
`reliable_variance[k]` equal to the `k`-th diagonal entry of
`U[:,:n]ᵀ · (Ftestᵀ·Gtest / Ttest) · V[:,:n]` and `all_variance[k]`
equal to `½·(S_F[k,k] + S_G[k,k])` with
`S_F = U[:,:n]ᵀ·(Ftestᵀ·Ftest/Ttest)·U[:,:n]` and
`S_G = Vh[:n]·(Gtestᵀ·Gtest/Ttest)·Vh[:n]ᵀ`, written out entrywise. -/
theorem C1_variance_decomposition (svd : NPMat → NPMat × NPMat) (hsvd : SvdOK svd)
    (Ftrain Ftest Gtrain Gtest : NPMat) (nd : ℕ)
    (hpre : Ftrain.cols = Ftest.cols ∧ Gtrain.cols = Gtest.cols ∧
       Ftrain.rows = Gtrain.rows ∧ Ftest.rows = Gtest.rows)
    (_hnd0 : 0 < nd) (hnd : nd ≤ min Ftrain.cols Gtrain.cols) :
    ∃ rv av SVC1 SVC2,
      svca svd Ftrain Ftest Gtrain Gtest (some nd) = some (rv, av, SVC1, SVC2) ∧
      (∀ k, k < nd → rv.getD k 0 =
        ∑ j in Finset.range Gtest.cols,
          (∑ i in Finset.range Ftest.cols,
            (svd (crossCov Ftrain Gtrain)).1.entry i k *
              ((∑ t in Finset.range Ftest.rows,
                Ftest.entry t i * Gtest.entry t j) / (Ftest.rows : ℚ))) *
            (svd (crossCov Ftrain Gtrain)).2.entry k j) ∧
      (∀ k, k < nd → av.getD k 0 = (1 / 2) * (
        (∑ i2 in Finset.range Ftest.cols,
          (∑ i in Finset.range Ftest.cols,
            (svd (crossCov Ftrain Gtrain)).1.entry i k *
              ((∑ t in Finset.range Ftest.rows,
                Ftest.entry t i * Ftest.entry t i2) / (Ftest.rows : ℚ))) *
            (svd (crossCov Ftrain Gtrain)).1.entry i2 k) +
        (∑ j2 in Finset.range Gtest.cols,
          (∑ j in Finset.range Gtest.cols,
            (svd (crossCov Ftrain Gtrain)).2.entry k j *
              ((∑ t in Finset.range Gtest.rows,
                Gtest.entry t j * Gtest.entry t j2) / (Ftest.rows : ℚ))) *
            (svd (crossCov Ftrain Gtrain)).2.entry k j2))) := by
  obtain ⟨h1, h2, h3, h4⟩ := hpre
  obtain ⟨hU1, hU2, hV1, hV2, hUW, hVW⟩ := hsvd (crossCov Ftrain Gtrain)
  have hUc : (svd (crossCov Ftrain Gtrain)).1.cols = Ftrain.cols := by rw [hU2]; rfl
  have hUr : (svd (crossCov Ftrain Gtrain)).1.rows = Ftrain.cols := by rw [hU1]; rfl
  have hVr : (svd (crossCov Ftrain Gtrain)).2.rows = Gtrain.cols := by rw [hV1]; rfl
  have hVc : (svd (crossCov Ftrain Gtrain)).2.cols = Gtrain.cols := by rw [hV2]; rfl
  have hsh1 : (S_FOf (svd (crossCov Ftrain Gtrain)).1 (crossCov Ftest Ftest) nd).rows =
      (S_GOf (svd (crossCov Ftrain Gtrain)).2 (crossCov Gtest Gtest) nd).rows := by
    simp only [S_FOf_rows, S_GOf_rows, hUc, hVr]; omega
  have hsh2 : (S_FOf (svd (crossCov Ftrain Gtrain)).1 (crossCov Ftest Ftest) nd).cols =
      (S_GOf (svd (crossCov Ftrain Gtrain)).2 (crossCov Gtest Gtest) nd).cols := by
    simp only [S_FOf_cols, S_GOf_cols, hUc, hVr]; omega
  simp only [svca, Option.getD_some, if_pos (⟨h1, h2, h3, h4⟩ : Ftrain.cols = Ftest.cols ∧
    Gtrain.cols = Gtest.cols ∧ Ftrain.rows = Gtrain.rows ∧ Ftest.rows = Gtest.rows)]
  rw [NPMat.npAdd_eq_of_shape hsh1 hsh2]
  refine ⟨_, _, _, _, rfl, fun k hk => ?_, fun k hk => ?_⟩
  · rw [NPMat.diag_getD _ (by
      simp only [S_hatOf_rows, S_hatOf_cols, hUc, hVr]; omega)]
    rw [S_hatOf_diag _ _ _ hk (by omega) (by omega) (by rw [hUr]; exact h1)
      (by rw [hVc]; exact h2)]
    simp only [crossCov_rows, crossCov_cols]
    refine Finset.sum_congr rfl fun j hj => ?_
    have hjG : j < Gtest.cols := Finset.mem_range.mp hj
    refine congrArg (· * (svd (crossCov Ftrain Gtrain)).2.entry k j) ?_
    refine Finset.sum_congr rfl fun i hi => ?_
    have hiF : i < Ftest.cols := Finset.mem_range.mp hi
    rw [crossCov_entry Ftest Gtest hiF hjG]
  · rw [getD_map' (fun x : ℚ => (1 / 2) * x) _ k 0 0 (mul_zero _)]
    refine congrArg (fun x => (1 / 2 : ℚ) * x) ?_
    rw [NPMat.diag_getD _ (by
      simp only [S_FOf_rows, S_FOf_cols, hUc]; omega)]
    rw [entry_npAdd_lit _ _ (by simp only [S_FOf_rows, hUc]; omega)
      (by simp only [S_FOf_cols, hUc]; omega)
      (by simp only [S_GOf_rows, hVr]; omega)
      (by simp only [S_GOf_cols, hVr]; omega)]
    rw [S_FOf_diag _ _ hk (by omega) (by rw [hUr]; exact h1)]
    rw [S_GOf_diag _ _ hk (by omega) (by rw [hVc]; exact h2) (by rw [hVc]; exact h2)]
    simp only [crossCov_rows, crossCov_cols]
    refine congrArg₂ (· + ·) ?_ ?_
    · refine Finset.sum_congr rfl fun i2 hi2 => ?_
      have hi2F : i2 < Ftest.cols := Finset.mem_range.mp hi2
      refine congrArg (· * (svd (crossCov Ftrain Gtrain)).1.entry i2 k) ?_
      refine Finset.sum_congr rfl fun i hi => ?_
      have hiF : i < Ftest.cols := Finset.mem_range.mp hi
      rw [crossCov_entry Ftest Ftest hiF hi2F]
    · refine Finset.sum_congr rfl fun j2 hj2 => ?_
      have hj2G : j2 < Gtest.cols := Finset.mem_range.mp hj2
      refine congrArg (· * (svd (crossCov Ftrain Gtrain)).2.entry k j2) ?_
      refine Finset.sum_congr rfl fun j hj => ?_
      have hjG : j < Gtest.cols := Finset.mem_range.mp hj
      rw [crossCov_entry Gtest Gtest hjG hj2G, h4]

/-- Witness for C1 with the identity SVD stand-in on 1-by-1 inputs. -/
theorem C1_variance_decomposition_witness :
    SvdOK svdId ∧
    ((⟨1, 1, [[1]]⟩ : NPMat).cols = (⟨1, 1, [[3]]⟩ : NPMat).cols ∧
     (⟨1, 1, [[2]]⟩ : NPMat).cols = (⟨1, 1, [[4]]⟩ : NPMat).cols ∧
     (⟨1, 1, [[1]]⟩ : NPMat).rows = (⟨1, 1, [[2]]⟩ : NPMat).rows ∧
     (⟨1, 1, [[3]]⟩ : NPMat).rows = (⟨1, 1, [[4]]⟩ : NPMat).rows) ∧
    0 < 1 ∧ 1 ≤ min (⟨1, 1, [[1]]⟩ : NPMat).cols (⟨1, 1, [[2]]⟩ : NPMat).cols ∧
    (∃ rv av SVC1 SVC2,
      svca svdId ⟨1, 1, [[1]]⟩ ⟨1, 1, [[3]]⟩ ⟨1, 1, [[2]]⟩ ⟨1, 1, [[4]]⟩ (some 1) =
        some (rv, av, SVC1, SVC2) ∧
      (∀ k, k < 1 → rv.getD k 0 =
        ∑ j in Finset.range (⟨1, 1, [[4]]⟩ : NPMat).cols,
          (∑ i in Finset.range (⟨1, 1, [[3]]⟩ : NPMat).cols,
            (svdId (crossCov ⟨1, 1, [[1]]⟩ ⟨1, 1, [[2]]⟩)).1.entry i k *
              ((∑ t in Finset.range (⟨1, 1, [[3]]⟩ : NPMat).rows,
                (⟨1, 1, [[3]]⟩ : NPMat).entry t i * (⟨1, 1, [[4]]⟩ : NPMat).entry t j) /
                  ((⟨1, 1, [[3]]⟩ : NPMat).rows : ℚ))) *
            (svdId (crossCov ⟨1, 1, [[1]]⟩ ⟨1, 1, [[2]]⟩)).2.entry k j) ∧
      (∀ k, k < 1 → av.getD k 0 = (1 / 2) * (
        (∑ i2 in Finset.range (⟨1, 1, [[3]]⟩ : NPMat).cols,
          (∑ i in Finset.range (⟨1, 1, [[3]]⟩ : NPMat).cols,
            (svdId (crossCov ⟨1, 1, [[1]]⟩ ⟨1, 1, [[2]]⟩)).1.entry i k *
              ((∑ t in Finset.range (⟨1, 1, [[3]]⟩ : NPMat).rows,
                (⟨1, 1, [[3]]⟩ : NPMat).entry t i * (⟨1, 1, [[3]]⟩ : NPMat).entry t i2) /
                  ((⟨1, 1, [[3]]⟩ : NPMat).rows : ℚ))) *
            (svdId (crossCov ⟨1, 1, [[1]]⟩ ⟨1, 1, [[2]]⟩)).1.entry i2 k) +
        (∑ j2 in Finset.range (⟨1, 1, [[4]]⟩ : NPMat).cols,
          (∑ j in Finset.range (⟨1, 1, [[4]]⟩ : NPMat).cols,
            (svdId (crossCov ⟨1, 1, [[1]]⟩ ⟨1, 1, [[2]]⟩)).2.entry k j *
              ((∑ t in Finset.range (⟨1, 1, [[4]]⟩ : NPMat).rows,
                (⟨1, 1, [[4]]⟩ : NPMat).entry t j * (⟨1, 1, [[4]]⟩ : NPMat).entry t j2) /
                  ((⟨1, 1, [[3]]⟩ : NPMat).rows : ℚ))) *
            (svdId (crossCov ⟨1, 1, [[1]]⟩ ⟨1, 1, [[2]]⟩)).2.entry k j2)))) :=
  ⟨svdId_ok, ⟨rfl, rfl, rfl, rfl⟩, by norm_num, by norm_num,
    C1_variance_decomposition svdId svdId_ok ⟨1, 1, [[1]]⟩ ⟨1, 1, [[3]]⟩ ⟨1, 1, [[2]]⟩
      ⟨1, 1, [[4]]⟩ 1 ⟨rfl, rfl, rfl, rfl⟩ (by norm_num) (by norm_num)⟩
